import Mathlib

/-!
Verification of the snapshot-based mutation and commit engine of the
databend repository, together with several small service-layer routines.

The file is organised as a shallow embedding:

* `ExportStream` models `ExportStream::poll_next` from
  `src/meta/service/src/api/grpc/grpc_service.rs`.
* `QueryCtx` models the partition queue of `QueryContext` from
  `src/query/service/src/sessions/query_ctx.rs`.
* `Handshake` models `MetaServiceImpl::handshake` from
  `src/meta/service/src/api/grpc/grpc_service.rs`.
* `MergeInto` models the merge-into subsystem.  Only the module's
  re-export list (`operations/merge_into/mod.rs`) is present in the
  sources; the accumulator, matcher and commit sink themselves are
  modelled from the specification, as marked on each definition.
-/

namespace ExportStream

/-- The state of an `ExportStream`: its `data: Vec<String>` field. -/
def ExportData := List String

/-- One call to `ExportStream::poll_next`: if `data` is empty the stream
is finished (`Poll::Ready(None)`); otherwise it drains the first
`min 16 (data.length)` elements and yields them as one chunk.  Returns
the yielded chunk (if any) together with the remaining data. -/
def pollNext (data : List String) : Option (List String) × List String :=
  let l := data.length
  if l = 0 then
    (none, data)
  else
    let chunkSize := min 16 l
    (some (data.take chunkSize), data.drop chunkSize)

/-- Call `pollNext` up to `fuel` times, stopping at the first `none`,
collecting the yielded chunks in order. -/
def drainFuel : Nat → List String → List (List String)
  | 0, _ => []
  | fuel + 1, data =>
      match pollNext data with
      | (none, _) => []
      | (some c, rest) => c :: drainFuel fuel rest

/-- Repeatedly call `pollNext` until it returns `none`, collecting the
yielded chunks in order.  Every successful poll removes at least one
element, so `data.length` calls always suffice. -/
def drainAll (data : List String) : List (List String) :=
  drainFuel data.length data

end ExportStream

namespace QueryCtx

/-- Parts (`PartInfoPtr`) are opaque to the queue logic; we keep it abstract as a
  value of an arbitrary type.  The partition queue (a `VecDeque`) is a
  list whose head is the front. -/
def PartQueue (α : Type) := List α

/-- Model of `QueryContext::get_partition`: pop the front of the queue. -/
def get_partition {α : Type} (q : List α) : Option α × List α :=
  match q with
  | [] => (none, [])
  | p :: rest => (some p, rest)

/-- Model of `QueryContext::get_partitions`: pop the front up to `num` times,
breaking as soon as the queue is empty, collecting the popped parts in
order. -/
def get_partitions {α : Type} (num : Nat) (q : List α) : List α × List α :=
  match num, q with
  | 0, q => ([], q)
  | _ + 1, [] => ([], [])
  | n + 1, p :: rest =>
      let r := get_partitions n rest
      (p :: r.1, r.2)

/-- Model of `QueryContext::set_partitions`: clear the queue, then push every
part of `partitions` to the back in order.  The previous queue content
is discarded entirely. -/
def set_partitions {α : Type} (partitions : List α) (_q : List α) : List α :=
  partitions

end QueryCtx

namespace Handshake

/-- Decoded HTTP basic-auth credentials, as produced by
`BasicAuth::decode` on the handshake payload. -/
structure BasicAuth where
  username : String
  password : String
deriving DecidableEq, Repr

/-- The gRPC status codes that `handshake` can produce. -/
inductive Status where
  | unauthenticated (msg : String)
  | internal (msg : String)
deriving DecidableEq, Repr

/-- A `HandshakeResponse`: the server protocol version and the payload
(the bytes of the created token). -/
structure HandshakeResponse where
  protocol_version : Nat
  payload : String
deriving DecidableEq, Repr

/-- Model of `MetaServiceImpl::handshake`, after the payload has been decoded to
`BasicAuth`.  `serverVersion` stands for `to_digit_ver(&METASRV_SEMVER)`
and `createToken` for `self.token.try_create_token` (both external to
this routine).  If the username equals `"root"`, a token is created for
the claim `username = "root"` and returned with the protocol version;
any other username is rejected with an unauthenticated status and no
token is created. -/
def handshake (serverVersion : Nat) (createToken : String → String)
    (auth : BasicAuth) : Except Status HandshakeResponse :=
  if auth.username = "root" then
    Except.ok { protocol_version := serverVersion
                payload := createToken "root" }
  else
    Except.error (Status.unauthenticated ("Unknown user: " ++ auth.username))

end Handshake

namespace MergeInto

/-- The list of public item names re-exported by
`operations/merge_into/mod.rs` (the `pub use` lines). -/
def moduleExports : List String :=
  [ "MutationAccumulator"
  , "AppendTransform"
  , "BroadcastProcessor"
  , "CommitSink"
  , "MergeIntoOperationAggregator"
  , "OnConflictField"
  , "TableMutationAggregator" ]

/-- Modelled from the spec: the Block-Level Operation of §3 — the unit
the Mutation Accumulator applies.  `ReplaceBlock` rewrites an existing
block; it carries the block's row count and the set of deleted row
offsets (which determine the surviving rows of the rewritten block).
`RemoveBlock` drops the block entirely.  `AppendBlock` operations go to
the delta's separate appended-blocks set and never collide on a block
id, so they are not part of the per-block-id merge.  The accumulator
itself (`MutationAccumulator`) is re-exported by
`operations/merge_into/mod.rs` but its body is not among the sources. -/
inductive BlockOperation where
  | ReplaceBlock (rowCount : Nat) (deleted : Finset Nat)
  | RemoveBlock
deriving DecidableEq

/-- Modelled from the spec: §3 — "a single source block may receive
multiple row-level intents that collapse into exactly one ReplaceBlock
(or RemoveBlock, if every row was deleted)".  A replace whose deleted
set covers every row offset of the block collapses to a remove. -/
def normalizeOp : BlockOperation → BlockOperation
  | .ReplaceBlock n s =>
      if Finset.range n ⊆ s then .RemoveBlock else .ReplaceBlock n s
  | .RemoveBlock => .RemoveBlock

/-- Modelled from the spec: §4.4 — merging two operations on the same
block id is "merge, not silent overwrite": two replaces union their
deleted row sets (collapsing to a remove when everything is deleted),
and a remove dominates anything merged with it. -/
def mergeOps : BlockOperation → BlockOperation → BlockOperation
  | .ReplaceBlock n s, .ReplaceBlock _ t => normalizeOp (.ReplaceBlock n (s ∪ t))
  | .RemoveBlock, _ => .RemoveBlock
  | .ReplaceBlock _ _, .RemoveBlock => .RemoveBlock

/-- The set of row offsets of a block with `n` rows that an operation
deletes: a replace deletes its recorded set, a remove deletes all `n`
rows. -/
def opDeleted (n : Nat) : BlockOperation → Finset Nat
  | .ReplaceBlock _ s => s
  | .RemoveBlock => Finset.range n

/-- Well-formedness of an operation against a block of `n` rows: a
replace refers to that row count and only deletes offsets that exist. -/
def WFOp (n : Nat) : BlockOperation → Prop
  | .ReplaceBlock m s => m = n ∧ s ⊆ Finset.range n
  | .RemoveBlock => True

instance (n : Nat) : (op : BlockOperation) → Decidable (WFOp n op)
  | .ReplaceBlock m s => inferInstanceAs (Decidable (m = n ∧ s ⊆ Finset.range n))
  | .RemoveBlock => inferInstanceAs (Decidable True)

/-- Modelled from the spec: the Mutation Delta of §3 — "a mapping from
touched block ids to their resulting operation".  (The appended-blocks
set is kept separately and plays no role in per-block-id merging.) -/
def MutationDelta := Nat → Option BlockOperation

/-- The delta before any operation has been folded in. -/
def emptyDelta : MutationDelta := fun _ => none

/-- Modelled from the spec: §4.4 — the Mutation Accumulator's
`fold(current_delta, incoming_operation) -> new_delta`.  An incoming
operation on a block id not yet touched is recorded as-is; an incoming
operation on an already-touched block id is merged with the existing
operation via `mergeOps`, never silently overwriting it. -/
def fold (d : MutationDelta) (op : Nat × BlockOperation) : MutationDelta :=
  fun i =>
    if i = op.1 then
      match d op.1 with
      | none => some op.2
      | some prev => some (mergeOps prev op.2)
    else d i

/-- Modelled from the spec: §4.3 — `MergeIntoOperationAggregator`'s
per-block decision: given a block's row count and the set of row
offsets its intents delete, emit `RemoveBlock` when every row is
deleted, a `ReplaceBlock` when some but not all rows are deleted, and
no operation when no intent touched the block. -/
def aggregateBlock (rowCount : Nat) (deleted : Finset Nat) :
    Option BlockOperation :=
  if deleted = ∅ then none
  else if Finset.range rowCount ⊆ deleted then some .RemoveBlock
  else some (.ReplaceBlock rowCount deleted)

/-- A row, as the list of its column values. -/
def Row := List Nat
deriving DecidableEq

/-- Modelled from the spec: the On-Conflict Key of §3 — an ordered set
of column references defining row identity; `OnConflictField` (one key
column) is re-exported by `operations/merge_into/mod.rs` but defined
outside the sources.  We represent the key as the list of its column
indices. -/
def OnConflictKey := List Nat

/-- The projection of a row onto the key columns. -/
def rowKey (key : List Nat) (row : List Nat) : List Nat :=
  key.map (fun c => row.getD c 0)

/-- The per-source-row decision of the On-Conflict Matcher (§4.2). -/
inductive MatchDecision where
  | Matched (rowOffset : Nat)
  | NotMatched
deriving DecidableEq, Repr

/-- Modelled from the spec: §4.2/§7 — `MultipleMatchError`, the fatal
error for a non-unique match under the on-conflict key. -/
inductive MatchError where
  | MultipleMatchError
deriving DecidableEq, Repr

/-- The target-row offsets whose key projection equals that of the
given source row. -/
def matchedTargets (key : List Nat) (target : List (List Nat))
    (srcRow : List Nat) : List Nat :=
  (List.range target.length).filter
    (fun o => rowKey key (target.getD o []) = rowKey key srcRow)

/-- Modelled from the spec: §4.2 — the matcher's decision for one
source row: `NotMatched` when no target row has an equal key,
`Matched o` when exactly one does, and `MultipleMatchError` when two
or more do. -/
def matchOne (key : List Nat) (target : List (List Nat))
    (srcRow : List Nat) : Except MatchError MatchDecision :=
  match matchedTargets key target srcRow with
  | [] => .ok .NotMatched
  | [o] => .ok (.Matched o)
  | _ :: _ :: _ => .error .MultipleMatchError

/-- Decide every source row of the batch in order, propagating the
first error. -/
def matchRows (key : List Nat) (source target : List (List Nat)) :
    Except MatchError (List MatchDecision) :=
  match source with
  | [] => .ok []
  | s :: rest =>
      match matchOne key target s, matchRows key rest target with
      | .ok dec, .ok ds => .ok (dec :: ds)
      | .error e, _ => .error e
      | .ok _, .error e => .error e

/-- The target offsets claimed by the `Matched` decisions of a batch. -/
def matchedOffsets (ds : List MatchDecision) : List Nat :=
  ds.filterMap (fun dec =>
    match dec with
    | .Matched o => some o
    | .NotMatched => none)

/-- Modelled from the spec: §4.2 — the On-Conflict Matcher over a
(source row batch, target block) pair.  Besides the per-row multiple
target matches, MERGE semantics also require at most one source match
per target row, so a batch in which two source rows claim the same
target offset is likewise a `MultipleMatchError`. -/
def matchBatch (key : List Nat) (source target : List (List Nat)) :
    Except MatchError (List MatchDecision) :=
  match matchRows key source target with
  | .error e => .error e
  | .ok ds =>
      if (matchedOffsets ds).Nodup then .ok ds
      else .error .MultipleMatchError

/-- Modelled from the spec: a Table Snapshot (§3), reduced to what the
commit protocol observes: its unique id and its list of block ids (the
flattened segment list).  Snapshots are immutable values; a new version
of the table is always a new snapshot. -/
structure Snapshot where
  id : Nat
  blocks : List Nat
deriving DecidableEq, Repr

/-- Modelled from the spec: the states of the Commit Sink state machine
(§4.5).  `CommitSink` is re-exported by `operations/merge_into/mod.rs`
but its body is not among the sources. -/
inductive SinkState where
  | Building
  | Writing
  | CasAttempt
  | Committed
  | ConflictRetry
  | Aborted
deriving DecidableEq, Repr

/-- Modelled from the spec: one in-flight mutation's commit attempt:
its state, the base snapshot the delta was built against, the ids of
the pre-existing blocks the delta removes or replaces (`touched`), the
ids of the newly written blocks (`appended`), the candidate snapshot
computed in Building, and how many CAS attempts have failed so far. -/
structure SinkMachine where
  state : SinkState
  base : Snapshot
  touched : List Nat
  appended : List Nat
  candidate : Snapshot
  attempts : Nat
deriving DecidableEq, Repr

/-- Modelled from the spec: the only mutable piece of state (§6): the
table's current-snapshot pointer, held by the metadata service.  A
reader querying the table observes exactly `current`. -/
structure World where
  current : Snapshot
deriving DecidableEq, Repr

/-- The block ids touched between two snapshots: blocks present in one
but not the other (a block replaced or removed by the concurrent commit
disappears from the new list; a block it wrote appears in it). -/
def touchedBetween (old new : Snapshot) : List Nat :=
  old.blocks.filter (fun b => decide (b ∉ new.blocks)) ++
    new.blocks.filter (fun b => decide (b ∉ old.blocks))

/-- Modelled from the spec: §4.5 ConflictRetry — "checks whether the
set of blocks it touched were also touched by the concurrent commit
(comparing block identities)".  True when this mutation's touched
blocks are disjoint from those touched between its base and the table's
new current snapshot. -/
def disjointFromConcurrent (m : SinkMachine) (w : World) : Bool :=
  m.touched.all (fun b => decide (b ∉ touchedBetween m.base w.current))

/-- Modelled from the spec: §4.5 Building — combine the base snapshot's
block list with the delta: drop the touched blocks, append the new
ones, under a fresh snapshot id. -/
def buildCandidate (m : SinkMachine) : Snapshot :=
  { id := m.base.id + 1
    blocks := m.base.blocks.filter (fun b => decide (b ∉ m.touched)) ++ m.appended }

/-- Modelled from the spec: one step of the Commit Sink state machine
(§4.5), for a configured maximum attempt count `maxRetries`.  `writeOk`
tells whether the physical writes of the Writing state succeeded (an
I/O failure is surfaced and aborts the mutation).  The CAS succeeds
exactly when the table's current snapshot still equals the base; only
that branch moves the table pointer.  From ConflictRetry: exceeding the
retry bound aborts; a disjoint concurrent commit rebases the delta onto
the new current snapshot and re-enters Building; an overlapping one
aborts.  Committed and Aborted are terminal. -/
def tick (maxRetries : Nat) (writeOk : Bool) (m : SinkMachine) (w : World) :
    SinkMachine × World :=
  match m.state with
  | .Building =>
      ({ m with state := .Writing, candidate := buildCandidate m }, w)
  | .Writing =>
      if writeOk then ({ m with state := .CasAttempt }, w)
      else ({ m with state := .Aborted }, w)
  | .CasAttempt =>
      if w.current = m.base then
        ({ m with state := .Committed }, { current := m.candidate })
      else
        ({ m with state := .ConflictRetry, attempts := m.attempts + 1 }, w)
  | .ConflictRetry =>
      if maxRetries ≤ m.attempts then ({ m with state := .Aborted }, w)
      else if disjointFromConcurrent m w then
        ({ m with state := .Building, base := w.current }, w)
      else ({ m with state := .Aborted }, w)
  | .Committed => (m, w)
  | .Aborted => (m, w)

/-- An event in an execution: either another transaction commits and
advances the table pointer, or this mutation's commit sink takes one
step (with the given write outcome). -/
inductive Event where
  | envCommit (s : Snapshot)
  | tick (writeOk : Bool)
deriving DecidableEq, Repr

/-- Apply one event to the machine and the world. -/
def stepEv (maxRetries : Nat) (e : Event) (m : SinkMachine) (w : World) :
    SinkMachine × World :=
  match e with
  | .envCommit s => (m, { current := s })
  | .tick writeOk => tick maxRetries writeOk m w

/-- All (machine, world) pairs along a run of the given events, the
initial pair included: everything a reader could observe before,
during, and after the attempt. -/
def trace (maxRetries : Nat) (m : SinkMachine) (w : World) :
    List Event → List (SinkMachine × World)
  | [] => [(m, w)]
  | e :: es =>
      (m, w) ::
        trace maxRetries (stepEv maxRetries e m w).1
          (stepEv maxRetries e m w).2 es

end MergeInto

/-! ## Theorems -/

namespace QueryCtx

theorem get_partitions_eq_take_drop {α : Type} (num : Nat) (q : List α) :
    get_partitions num q = (q.take num, q.drop num) := by
  induction num generalizing q with
  | zero => simp [get_partitions]
  | succ n ih =>
      cases q with
      | nil => simp [get_partitions]
      | cons p rest => simp [get_partitions, ih]

/-- C9: `set_partitions ps` discards all previously queued partitions;
afterwards `get_partition` / `get_partitions` return the parts of `ps`
in their original order, each part exactly once; `get_partitions n`
returns at most `n` parts and fewer than `n` only when the queue has
been exhausted; `get_partitions ps.length` after `set_partitions ps`
returns exactly `ps`. -/
theorem get_partitions_spec {α : Type} (ps q : List α) (n : Nat) :
    set_partitions ps q = ps ∧
    (get_partitions n (set_partitions ps q)).1 = ps.take n ∧
    (get_partitions n (set_partitions ps q)).2 = ps.drop n ∧
    get_partition (set_partitions ps q) = (ps.head?, ps.tail) ∧
    ((get_partitions n ps).1).length ≤ n ∧
    (((get_partitions n ps).1).length < n → (get_partitions n ps).2 = []) ∧
    (get_partitions n ps).1 ++ (get_partitions n ps).2 = ps ∧
    get_partitions ps.length (set_partitions ps q) = (ps, []) := by
  refine ⟨rfl, ?_, ?_, ?_, ?_, ?_, ?_, ?_⟩
  · rw [set_partitions, get_partitions_eq_take_drop]
  · rw [set_partitions, get_partitions_eq_take_drop]
  · cases ps <;> rfl
  · rw [get_partitions_eq_take_drop]
    simp only [List.length_take]
    exact Nat.min_le_left n ps.length
  · rw [get_partitions_eq_take_drop]
    intro hlt
    simp only [List.length_take] at hlt
    have hle : ps.length ≤ n := by omega
    simp [List.drop_eq_nil_of_le hle]
  · rw [get_partitions_eq_take_drop]
    exact List.take_append_drop n ps
  · rw [set_partitions, get_partitions_eq_take_drop]
    simp

/-- Witness for `get_partitions_spec`: at `ps = [1,2,3]`, `n = 5`, the
queue is exhausted, so fewer than `n` parts come back and the remaining
queue is empty. -/
theorem get_partitions_spec_witness :
    ((get_partitions 5 [1, 2, 3]).1).length < 5 ∧
    (get_partitions 5 [1, 2, 3]).2 = ([] : List Nat) :=
  ⟨by decide, (get_partitions_spec [1, 2, 3] [9] 5).2.2.2.2.2.1 (by decide)⟩

end QueryCtx

namespace ExportStream

theorem drainFuel_flatten :
    ∀ (fuel : Nat) (data : List String),
      data.length ≤ fuel → (drainFuel fuel data).flatten = data
  | 0, data, h => by
      have hd : data = [] := List.length_eq_zero.mp (Nat.le_zero.mp h)
      subst hd; rfl
  | fuel + 1, data, h => by
      by_cases hd : data = []
      · subst hd; rfl
      · have hlen : 0 < data.length := List.length_pos.mpr hd
        have hne : data.length ≠ 0 := Nat.pos_iff_ne_zero.mp hlen
        have h16 : 1 ≤ min 16 data.length := by
          have := Nat.min_le_left 16 data.length
          omega
        have hrec :
            (drainFuel fuel (data.drop (min 16 data.length))).flatten =
              data.drop (min 16 data.length) := by
          apply drainFuel_flatten
          have := Nat.min_le_right 16 data.length
          simp only [List.length_drop]
          omega
        simp only [drainFuel, pollNext, if_neg hne]
        rw [List.flatten_cons, hrec]
        exact List.take_append_drop _ data

/-- C8: one `poll_next` call returns `none` exactly when the remaining
data is empty; otherwise it yields the next `min 16 (remaining)` items
in their original order, leaving the rest; draining the whole stream
concatenates back to the initial data vector. -/
theorem poll_next_spec (data : List String) :
    ((pollNext data).1 = none ↔ data = []) ∧
    (∀ c rest, pollNext data = (some c, rest) →
      c = data.take (min 16 data.length) ∧
      c.length = min 16 data.length ∧
      rest = data.drop (min 16 data.length) ∧
      c ++ rest = data) ∧
    (drainAll data).flatten = data := by
  refine ⟨?_, ?_, drainFuel_flatten data.length data (Nat.le_refl _)⟩
  · by_cases hd : data = []
    · subst hd; simp [pollNext]
    · have hne : data.length ≠ 0 := by
        simpa [List.length_eq_zero] using hd
      simp [pollNext, hne, hd]
  · intro c rest h
    by_cases hd : data = []
    · subst hd; simp [pollNext] at h
    · have hne : data.length ≠ 0 := by
        simpa [List.length_eq_zero] using hd
      simp only [pollNext, if_neg hne, Prod.mk.injEq, Option.some.injEq] at h
      obtain ⟨hc, hrest⟩ := h
      subst hc; subst hrest
      refine ⟨rfl, ?_, rfl, List.take_append_drop _ data⟩
      simp only [List.length_take]
      have := Nat.min_le_right 16 data.length
      omega

/-- Witness for `poll_next_spec`: on `["a"]` the single poll yields the
whole vector as one chunk of size `min 16 1 = 1` and leaves nothing. -/
theorem poll_next_spec_witness :
    ["a"] = List.take (min 16 (["a"] : List String).length) ["a"] ∧
    (["a"] : List String).length = min 16 (["a"] : List String).length ∧
    ([] : List String) = List.drop (min 16 (["a"] : List String).length) ["a"] ∧
    ["a"] ++ ([] : List String) = ["a"] := by
  have h := (poll_next_spec ["a"]).2.1 ["a"] [] rfl
  exact ⟨h.1, h.2.1.symm ▸ rfl, h.2.2.1, h.2.2.2⟩

end ExportStream

namespace Handshake

/-- C10: `handshake` authenticates exactly the username `"root"`: for a
decoded `BasicAuth` whose username equals `"root"` it returns a
response carrying the created token and the server protocol version,
and for every other username it returns an unauthenticated status (no
token is part of the result). -/
theorem handshake_root_only (v : Nat) (createToken : String → String)
    (auth : BasicAuth) :
    (auth.username = "root" →
      handshake v createToken auth =
        Except.ok { protocol_version := v, payload := createToken "root" }) ∧
    (auth.username ≠ "root" →
      handshake v createToken auth =
        Except.error
          (Status.unauthenticated ("Unknown user: " ++ auth.username))) := by
  constructor
  · intro h
    simp [handshake, h]
  · intro h
    simp [handshake, h]

/-- Witness for `handshake_root_only`: `"root"` gets a token-carrying
response, `"alice"` gets an unauthenticated status. -/
theorem handshake_root_only_witness :
    handshake 7 (fun s => s ++ "-token") ⟨"root", "pw"⟩ =
      Except.ok { protocol_version := 7, payload := "root-token" } ∧
    handshake 7 (fun s => s ++ "-token") ⟨"alice", "pw"⟩ =
      Except.error (Status.unauthenticated ("Unknown user: " ++ "alice")) :=
  ⟨(handshake_root_only 7 (fun s => s ++ "-token") ⟨"root", "pw"⟩).1 rfl,
   (handshake_root_only 7 (fun s => s ++ "-token") ⟨"alice", "pw"⟩).2
     (by decide)⟩

end Handshake

namespace MergeInto

/-- C7: the merge-into module publicly re-exports each component the
spec names: `MutationAccumulator`, the pipeline processors
`AppendTransform`, `BroadcastProcessor`, `MergeIntoOperationAggregator`
and `TableMutationAggregator`, a `CommitSink`, and the `OnConflictField`
type for the on-conflict key. -/
theorem module_exports_spec :
    "MutationAccumulator" ∈ moduleExports ∧
    "AppendTransform" ∈ moduleExports ∧
    "BroadcastProcessor" ∈ moduleExports ∧
    "MergeIntoOperationAggregator" ∈ moduleExports ∧
    "TableMutationAggregator" ∈ moduleExports ∧
    "CommitSink" ∈ moduleExports ∧
    "OnConflictField" ∈ moduleExports := by
  refine ⟨?_, ?_, ?_, ?_, ?_, ?_, ?_⟩ <;> simp [moduleExports]

theorem opDeleted_mergeOps (n : Nat) (a b : BlockOperation)
    (ha : WFOp n a) (hb : WFOp n b) :
    opDeleted n (mergeOps a b) = opDeleted n a ∪ opDeleted n b := by
  cases a with
  | RemoveBlock =>
      cases b with
      | RemoveBlock => simp [mergeOps, opDeleted]
      | ReplaceBlock m t =>
          obtain ⟨-, hsub⟩ := hb
          simp only [mergeOps, opDeleted]
          exact (Finset.union_eq_left.mpr hsub).symm
  | ReplaceBlock m s =>
      obtain ⟨hm, hsub⟩ := ha
      subst hm
      cases b with
      | RemoveBlock =>
          simp only [mergeOps, opDeleted]
          exact (Finset.union_eq_right.mpr hsub).symm
      | ReplaceBlock m2 t =>
          obtain ⟨hm2, htsub⟩ := hb
          simp only [mergeOps, normalizeOp]
          by_cases hcov : Finset.range m ⊆ s ∪ t
          · simp only [if_pos hcov, opDeleted]
            exact Finset.Subset.antisymm hcov (Finset.union_subset hsub htsub)
          · simp [if_neg hcov, opDeleted]

/-- C4: folding is commutative over operations touching distinct block
ids — `fold (fold D op1) op2 = fold (fold D op2) op1` — and folding two
operations onto the same block id records the merge of both (never a
silent overwrite): the merged operation's deleted row set is exactly the
union of the two operations' deleted row sets. -/
theorem fold_comm_and_merge (d : MutationDelta) (i j n : Nat)
    (a b : BlockOperation) :
    (i ≠ j → fold (fold d (i, a)) (j, b) = fold (fold d (j, b)) (i, a)) ∧
    (d i = none → fold (fold d (i, a)) (i, b) i = some (mergeOps a b)) ∧
    (WFOp n a → WFOp n b →
      opDeleted n (mergeOps a b) = opDeleted n a ∪ opDeleted n b) := by
  refine ⟨?_, ?_, fun ha hb => opDeleted_mergeOps n a b ha hb⟩
  · intro hij
    funext x
    by_cases hxi : x = i
    · subst hxi
      simp [fold, hij, Ne.symm hij]
    · by_cases hxj : x = j
      · subst hxj
        simp [fold, hij, Ne.symm hij, hxi]
      · simp [fold, hxi, hxj]
  · intro hnone
    simp [fold, hnone]

/-- Witness for `fold_comm_and_merge`: block ids 1 and 2, a replace of
rows `{0}` in a 2-row block and a remove, folded into the empty delta. -/
theorem fold_comm_and_merge_witness :
    fold (fold emptyDelta (1, BlockOperation.ReplaceBlock 2 {0}))
        (2, BlockOperation.RemoveBlock) =
      fold (fold emptyDelta (2, BlockOperation.RemoveBlock))
        (1, BlockOperation.ReplaceBlock 2 {0}) ∧
    fold (fold emptyDelta (1, BlockOperation.ReplaceBlock 2 {0}))
        (1, BlockOperation.RemoveBlock) 1 =
      some (mergeOps (BlockOperation.ReplaceBlock 2 {0})
        BlockOperation.RemoveBlock) ∧
    opDeleted 2 (mergeOps (BlockOperation.ReplaceBlock 2 {0})
        BlockOperation.RemoveBlock) =
      opDeleted 2 (BlockOperation.ReplaceBlock 2 {0}) ∪
        opDeleted 2 BlockOperation.RemoveBlock :=
  ⟨(fold_comm_and_merge emptyDelta 1 2 2 (BlockOperation.ReplaceBlock 2 {0})
      BlockOperation.RemoveBlock).1 (by decide),
   (fold_comm_and_merge emptyDelta 1 1 2 (BlockOperation.ReplaceBlock 2 {0})
      BlockOperation.RemoveBlock).2.1 rfl,
   (fold_comm_and_merge emptyDelta 1 1 2 (BlockOperation.ReplaceBlock 2 {0})
      BlockOperation.RemoveBlock).2.2 (by decide) (by decide)⟩

end MergeInto

namespace MergeInto

/-- C2: no lost updates — two partitions independently deleting
disjoint, non-empty row subsets `s` and `t` of the same `n`-row block
`B` each yield one block-level operation; folding both into a delta not
yet touching `B` leaves a single operation for `B` whose deleted row
set is exactly `s ∪ t` — a `ReplaceBlock`, or `RemoveBlock` exactly
when every row of the block is deleted.  Neither deletion is lost. -/
theorem no_lost_updates (n B : Nat) (s t : Finset Nat) (d : MutationDelta)
    (hs : s ⊆ Finset.range n) (ht : t ⊆ Finset.range n)
    (hdisj : Disjoint s t) (hs0 : s ≠ ∅) (ht0 : t ≠ ∅)
    (hB : d B = none) :
    ∃ op1 op2 op,
      aggregateBlock n s = some op1 ∧
      aggregateBlock n t = some op2 ∧
      fold (fold d (B, op1)) (B, op2) B = some op ∧
      opDeleted n op = s ∪ t ∧
      (op = BlockOperation.RemoveBlock ↔ s ∪ t = Finset.range n) := by
  have hsfull : ¬Finset.range n ⊆ s := by
    intro hcov
    obtain ⟨a, hat⟩ := Finset.nonempty_iff_ne_empty.mpr ht0
    exact (Finset.disjoint_left.mp hdisj (hcov (ht hat))) hat
  have htfull : ¬Finset.range n ⊆ t := by
    intro hcov
    obtain ⟨a, has⟩ := Finset.nonempty_iff_ne_empty.mpr hs0
    exact (Finset.disjoint_left.mp hdisj has) (hcov (hs has))
  refine ⟨BlockOperation.ReplaceBlock n s, BlockOperation.ReplaceBlock n t,
    normalizeOp (BlockOperation.ReplaceBlock n (s ∪ t)), ?_, ?_, ?_, ?_, ?_⟩
  · simp [aggregateBlock, hs0, hsfull]
  · simp [aggregateBlock, ht0, htfull]
  · simp [fold, hB, mergeOps]
  · simp only [normalizeOp]
    by_cases hcov : Finset.range n ⊆ s ∪ t
    · simp only [if_pos hcov, opDeleted]
      exact Finset.Subset.antisymm hcov (Finset.union_subset hs ht)
    · simp [if_neg hcov, opDeleted]
  · simp only [normalizeOp]
    by_cases hcov : Finset.range n ⊆ s ∪ t
    · simp only [if_pos hcov]
      have : s ∪ t = Finset.range n :=
        Finset.Subset.antisymm (Finset.union_subset hs ht) hcov
      simp [this]
    · simp only [if_neg hcov]
      constructor
      · intro h
        exact absurd h (by simp)
      · intro h
        exact absurd (h ▸ Finset.Subset.refl _) hcov

/-- Witness for `no_lost_updates`: partitions deleting rows `{0}` and
`{1}` of the 3-row block `7`, folded into the empty delta. -/
theorem no_lost_updates_witness :
    ∃ op1 op2 op,
      aggregateBlock 3 {0} = some op1 ∧
      aggregateBlock 3 {1} = some op2 ∧
      fold (fold emptyDelta (7, op1)) (7, op2) 7 = some op ∧
      opDeleted 3 op = {0} ∪ {1} ∧
      (op = BlockOperation.RemoveBlock ↔ {0} ∪ {1} = Finset.range 3) :=
  no_lost_updates 3 7 {0} {1} emptyDelta (by decide) (by decide) (by decide)
    (by decide) (by decide) rfl

theorem matchOne_error_iff (key : List Nat) (target : List (List Nat))
    (s : List Nat) :
    matchOne key target s = .error .MultipleMatchError ↔
      2 ≤ (matchedTargets key target s).length := by
  cases h : matchedTargets key target s with
  | nil => simp [matchOne, h]
  | cons x l =>
      cases l with
      | nil => simp [matchOne, h]
      | cons y l2 =>
          simp only [matchOne, h, List.length_cons]
          constructor
          · intro _; omega
          · intro _; trivial

theorem matchOne_ok_length (key : List Nat) (target : List (List Nat))
    (s : List Nat) (d : MatchDecision)
    (h : matchOne key target s = .ok d) :
    (matchedTargets key target s).length ≤ 1 := by
  cases hm : matchedTargets key target s with
  | nil => simp
  | cons x l =>
      cases l with
      | nil => simp
      | cons y l2 => simp [matchOne, hm] at h

theorem matchRows_error_of_multi (key : List Nat)
    (source target : List (List Nat)) (s : List Nat) (hs : s ∈ source)
    (hlen : 2 ≤ (matchedTargets key target s).length) :
    matchRows key source target = .error .MultipleMatchError := by
  induction source with
  | nil => cases hs
  | cons a rest ih =>
      rcases List.mem_cons.mp hs with h | h
      · subst h
        have he := (matchOne_error_iff key target s).mpr hlen
        simp [matchRows, he]
      · have hr := ih h
        simp only [matchRows, hr]
        cases hma : matchOne key target a with
        | error e => cases e; rfl
        | ok d => rfl

theorem matchRows_ok_pointwise (key : List Nat)
    (source target : List (List Nat)) (ds : List MatchDecision)
    (h : matchRows key source target = .ok ds) :
    ds.length = source.length ∧
    ∀ i, i < source.length →
      matchOne key target (source.getD i []) = .ok (ds.getD i .NotMatched) := by
  induction source generalizing ds with
  | nil =>
      simp only [matchRows, Except.ok.injEq] at h
      subst h
      simp
  | cons a rest ih =>
      simp only [matchRows] at h
      cases hma : matchOne key target a with
      | error e => rw [hma] at h; cases h
      | ok d =>
          cases hmr : matchRows key rest target with
          | error e => rw [hma, hmr] at h; cases h
          | ok ds2 =>
              rw [hma, hmr] at h
              cases h
              obtain ⟨hl, hp⟩ := ih ds2 hmr
              refine ⟨by simp [hl], ?_⟩
              intro i hi
              cases i with
              | zero => simpa using hma
              | succ k =>
                  have hk : k < rest.length := by
                    simpa [Nat.succ_lt_succ_iff] using hi
                  simpa using hp k hk

/-- C5: match uniqueness — whenever two or more target rows match one
source row under the on-conflict key, the matcher returns
`MultipleMatchError`; likewise a batch in which two source rows claim
the same target row is rejected; a successful batch has at most one
target match per source row and pairwise distinct claimed targets. -/
theorem multiple_match_spec (key : List Nat)
    (source target : List (List Nat)) :
    ((∃ s ∈ source, 2 ≤ (matchedTargets key target s).length) →
      matchBatch key source target = .error .MultipleMatchError) ∧
    (∀ ds, matchRows key source target = .ok ds →
      ¬(matchedOffsets ds).Nodup →
      matchBatch key source target = .error .MultipleMatchError) ∧
    (∀ ds, matchBatch key source target = .ok ds →
      (∀ s ∈ source, (matchedTargets key target s).length ≤ 1) ∧
      (matchedOffsets ds).Nodup) := by
  refine ⟨?_, ?_, ?_⟩
  · rintro ⟨s, hs, hlen⟩
    have hr := matchRows_error_of_multi key source target s hs hlen
    simp [matchBatch, hr]
  · intro ds hr hnd
    simp [matchBatch, hr, hnd]
  · intro ds h
    unfold matchBatch at h
    cases hmr : matchRows key source target with
    | error e =>
        rw [hmr] at h
        simp at h
    | ok ds2 =>
        rw [hmr] at h
        by_cases hnd : (matchedOffsets ds2).Nodup
        · simp only [hnd, if_true, Except.ok.injEq] at h
          subst h
          refine ⟨?_, hnd⟩
          intro s hs
          obtain ⟨i, hi, hEl⟩ := List.mem_iff_getElem.mp hs
          have hp := (matchRows_ok_pointwise key source target ds2 hmr).2 i hi
          rw [List.getD_eq_getElem source [] hi, hEl] at hp
          exact matchOne_ok_length key target s _ hp
        · simp only [hnd, if_false] at h
          simp at h

/-- Witness for `multiple_match_spec`: under key column 0, the single
source row `[1]` matches both target rows of `[[1], [1]]`, and the
batch is rejected with `MultipleMatchError`. -/
theorem multiple_match_spec_witness :
    matchBatch [0] [[1]] [[1], [1]] = .error .MultipleMatchError :=
  (multiple_match_spec [0] [[1]] [[1], [1]]).1 ⟨[1], by decide, by decide⟩

/-- C6: determinism of on-conflict matching — a successful batch result
is pointwise determined by the input data alone: it has one decision
per source row, and the decision at position `i` is exactly
`matchOne key target (source at i)`, independent of the processing
order of the other rows (so any re-run over the same key, source batch
and target block reproduces identical per-row decisions). -/
theorem match_deterministic (key : List Nat)
    (source target : List (List Nat)) (ds : List MatchDecision)
    (h : matchBatch key source target = .ok ds) :
    ds.length = source.length ∧
    ∀ i, i < source.length →
      matchOne key target (source.getD i []) = .ok (ds.getD i .NotMatched) := by
  unfold matchBatch at h
  cases hmr : matchRows key source target with
  | error e =>
      rw [hmr] at h
      simp at h
  | ok ds2 =>
      rw [hmr] at h
      by_cases hnd : (matchedOffsets ds2).Nodup
      · simp only [hnd, if_true, Except.ok.injEq] at h
        subst h
        exact matchRows_ok_pointwise key source target ds2 hmr
      · simp only [hnd, if_false] at h
        simp at h

/-- Witness for `match_deterministic`: key column 0, source rows
`[1], [2]`, target rows `[1], [3]`: the decisions are `Matched 0` and
`NotMatched`, each fixed by its own row. -/
theorem match_deterministic_witness :
    ([MatchDecision.Matched 0, MatchDecision.NotMatched]).length =
      ([[1], [2]] : List (List Nat)).length ∧
    ∀ i, i < ([[1], [2]] : List (List Nat)).length →
      matchOne [0] [[1], [3]] (([[1], [2]] : List (List Nat)).getD i []) =
        .ok (([MatchDecision.Matched 0, MatchDecision.NotMatched]).getD i
          .NotMatched) :=
  match_deterministic [0] [[1], [2]] [[1], [3]]
    [MatchDecision.Matched 0, MatchDecision.NotMatched] rfl

theorem tick_current_unchanged (maxRetries : Nat) (writeOk : Bool)
    (m : SinkMachine) (w : World)
    (h : (tick maxRetries writeOk m w).1.state ≠ SinkState.Committed) :
    (tick maxRetries writeOk m w).2 = w := by
  cases hs : m.state
  case Building => simp [tick, hs]
  case Writing => by_cases hw : writeOk = true <;> simp [tick, hs, hw]
  case CasAttempt =>
      by_cases hc : w.current = m.base
      · exact absurd (by simp [tick, hs, hc]) h
      · simp [tick, hs, hc]
  case ConflictRetry =>
      by_cases h1 : maxRetries ≤ m.attempts
      · simp [tick, hs, h1]
      · by_cases h2 : disjointFromConcurrent m w = true <;>
          simp [tick, hs, h1, h2]
  case Committed => simp [tick, hs]
  case Aborted => simp [tick, hs]

/-- C1: atomicity of commit — along any execution of the commit sink in
which no other transaction commits and the machine never reaches
`Committed`, the table's current snapshot is identical at every
observation point before, during, and after the attempt: a reader only
ever sees the pre-mutation snapshot, never a partially-visible
intermediate state. -/
theorem commit_atomicity (maxRetries : Nat) (m : SinkMachine) (w : World)
    (evs : List Event)
    (hticks : ∀ s, Event.envCommit s ∉ evs)
    (hnc : ∀ p ∈ trace maxRetries m w evs, p.1.state ≠ SinkState.Committed) :
    ∀ p ∈ trace maxRetries m w evs, p.2.current = w.current := by
  induction evs generalizing m w with
  | nil =>
      intro p hp
      simp only [trace, List.mem_singleton] at hp
      subst hp
      rfl
  | cons e es ih =>
      intro p hp
      simp only [trace, List.mem_cons] at hp
      rcases hp with rfl | hp
      · rfl
      · cases e with
        | envCommit s => exact absurd (List.mem_cons_self _ _) (hticks s)
        | tick wOk =>
            have hmemBase :
                ((tick maxRetries wOk m w).1, (tick maxRetries wOk m w).2) ∈
                  trace maxRetries (tick maxRetries wOk m w).1
                    (tick maxRetries wOk m w).2 es := by
              cases es <;> simp [trace]
            have hne : (tick maxRetries wOk m w).1.state ≠
                SinkState.Committed := by
              have hmem :
                  ((tick maxRetries wOk m w).1, (tick maxRetries wOk m w).2) ∈
                    trace maxRetries m w (Event.tick wOk :: es) := by
                simp only [trace, List.mem_cons]
                right
                exact hmemBase
              exact hnc _ hmem
            have hw : (tick maxRetries wOk m w).2 = w :=
              tick_current_unchanged maxRetries wOk m w hne
            have hcur :=
              ih (tick maxRetries wOk m w).1 (tick maxRetries wOk m w).2
                (fun s hs => hticks s (List.mem_cons_of_mem _ hs))
                (fun q hq => hnc q (by
                  simp only [trace, List.mem_cons]
                  right
                  exact hq))
                p hp
            rw [hcur, hw]

/-- Witness for `commit_atomicity`: a mutation that aborts on a write
failure (Building, Writing, Aborted) never moves the table pointer. -/
theorem commit_atomicity_witness :
    ((trace 3
        { state := SinkState.Building
          base := { id := 0, blocks := [1, 2] }
          touched := [1]
          appended := [10]
          candidate := { id := 0, blocks := [1, 2] }
          attempts := 0 }
        { current := { id := 0, blocks := [1, 2] } }
        [Event.tick true, Event.tick false]).getD 2
      ({ state := SinkState.Building
         base := { id := 0, blocks := [1, 2] }
         touched := [1]
         appended := [10]
         candidate := { id := 0, blocks := [1, 2] }
         attempts := 0 },
       { current := { id := 0, blocks := [1, 2] } })).2.current =
    World.current { current := { id := 0, blocks := [1, 2] } } :=
  commit_atomicity 3
    { state := SinkState.Building
      base := { id := 0, blocks := [1, 2] }
      touched := [1]
      appended := [10]
      candidate := { id := 0, blocks := [1, 2] }
      attempts := 0 }
    { current := { id := 0, blocks := [1, 2] } }
    [Event.tick true, Event.tick false]
    (fun s => by simp)
    (by decide)
    _
    (by decide)

/-- C3: the commit sink is a state machine over
`{Building, Writing, CasAttempt, Committed, ConflictRetry, Aborted}` in
which, from `ConflictRetry`: a concurrent commit touching a disjoint
block set rebases the delta onto the new current snapshot and re-enters
`Building`; an overlapping block set escalates to `Aborted`; exceeding
the configured maximum attempt count also ends in `Aborted`.
`Committed` and `Aborted` are the only terminal states: a step from
either changes nothing, and a step from any other state changes the
state. -/
theorem commit_sink_state_machine (maxRetries : Nat) (writeOk : Bool)
    (m : SinkMachine) (w : World) :
    (m.state = SinkState.ConflictRetry → m.attempts < maxRetries →
      disjointFromConcurrent m w = true →
      (tick maxRetries writeOk m w).1.state = SinkState.Building ∧
      (tick maxRetries writeOk m w).1.base = w.current) ∧
    (m.state = SinkState.ConflictRetry → m.attempts < maxRetries →
      disjointFromConcurrent m w = false →
      (tick maxRetries writeOk m w).1.state = SinkState.Aborted) ∧
    (m.state = SinkState.ConflictRetry → maxRetries ≤ m.attempts →
      (tick maxRetries writeOk m w).1.state = SinkState.Aborted) ∧
    (m.state = SinkState.Committed → tick maxRetries writeOk m w = (m, w)) ∧
    (m.state = SinkState.Aborted → tick maxRetries writeOk m w = (m, w)) ∧
    (m.state ≠ SinkState.Committed → m.state ≠ SinkState.Aborted →
      (tick maxRetries writeOk m w).1.state ≠ m.state) := by
  refine ⟨?_, ?_, ?_, ?_, ?_, ?_⟩
  · intro h1 h2 h3
    have hnle : ¬maxRetries ≤ m.attempts := Nat.not_le.mpr h2
    constructor <;> simp [tick, h1, hnle, h3]
  · intro h1 h2 h3
    have hnle : ¬maxRetries ≤ m.attempts := Nat.not_le.mpr h2
    simp [tick, h1, hnle, h3]
  · intro h1 h2
    simp [tick, h1, h2]
  · intro h1
    simp [tick, h1]
  · intro h1
    simp [tick, h1]
  · intro h1 h2
    cases hs : m.state
    case Building => simp [tick, hs]
    case Writing =>
        by_cases hw : writeOk = true <;> simp [tick, hs, hw]
    case CasAttempt =>
        by_cases hc : w.current = m.base <;> simp [tick, hs, hc]
    case ConflictRetry =>
        by_cases hb : maxRetries ≤ m.attempts
        · simp [tick, hs, hb]
        · by_cases hd : disjointFromConcurrent m w = true <;>
            simp [tick, hs, hb, hd]
    case Committed => exact absurd hs h1
    case Aborted => exact absurd hs h2

/-- Witness for `commit_sink_state_machine`: from `ConflictRetry` with
one failed attempt out of three allowed, a disjoint concurrent commit
(`[1,2] → [1,2,3]`, touched `[1]`) rebases into `Building`; an
overlapping one (`[2,3]`, concurrent removal of block 1) aborts;
an exhausted retry budget aborts; `Committed` and `Aborted` are inert. -/
theorem commit_sink_state_machine_witness :
    ((tick 3 true
        { state := SinkState.ConflictRetry
          base := { id := 0, blocks := [1, 2] }
          touched := [1]
          appended := [10]
          candidate := { id := 0, blocks := [1, 2] }
          attempts := 1 }
        { current := { id := 5, blocks := [1, 2, 3] } }).1.state =
      SinkState.Building ∧
     (tick 3 true
        { state := SinkState.ConflictRetry
          base := { id := 0, blocks := [1, 2] }
          touched := [1]
          appended := [10]
          candidate := { id := 0, blocks := [1, 2] }
          attempts := 1 }
        { current := { id := 5, blocks := [1, 2, 3] } }).1.base =
      World.current { current := { id := 5, blocks := [1, 2, 3] } }) ∧
    (tick 3 true
        { state := SinkState.ConflictRetry
          base := { id := 0, blocks := [1, 2] }
          touched := [1]
          appended := [10]
          candidate := { id := 0, blocks := [1, 2] }
          attempts := 1 }
        { current := { id := 5, blocks := [2, 3] } }).1.state =
      SinkState.Aborted ∧
    (tick 3 true
        { state := SinkState.ConflictRetry
          base := { id := 0, blocks := [1, 2] }
          touched := [1]
          appended := [10]
          candidate := { id := 0, blocks := [1, 2] }
          attempts := 3 }
        { current := { id := 5, blocks := [1, 2, 3] } }).1.state =
      SinkState.Aborted ∧
    tick 3 true
        { state := SinkState.Committed
          base := { id := 0, blocks := [1, 2] }
          touched := [1]
          appended := [10]
          candidate := { id := 1, blocks := [2, 10] }
          attempts := 0 }
        { current := { id := 1, blocks := [2, 10] } } =
      ({ state := SinkState.Committed
         base := { id := 0, blocks := [1, 2] }
         touched := [1]
         appended := [10]
         candidate := { id := 1, blocks := [2, 10] }
         attempts := 0 },
       { current := { id := 1, blocks := [2, 10] } }) :=
  ⟨(commit_sink_state_machine 3 true _ _).1 rfl (by decide) (by decide),
   (commit_sink_state_machine 3 true _ _).2.1 rfl (by decide) (by decide),
   (commit_sink_state_machine 3 true _ _).2.2.1 rfl (by decide),
   (commit_sink_state_machine 3 true _ _).2.2.2.1 rfl⟩
